import Mathlib

/-! Shallow embedding of `langgraph/pregel/messages.py` (class
`StreamMessagesHandler`): the event correlator that turns model-token and
node-completion callbacks into a deduplicated stream of messages.

The handler's mutable state (`self.metadata`, `self.seen`, the calls made to
`self.stream`) is modelled by an explicit `HandlerState` record that every
handler method consumes and returns; the sink callable is modelled by the
`out` list, to which each `self.stream(...)` call appends one chunk.
Fallible Python code (attribute reads, required-metadata access) returns an
explicit optional `PyErr`; a handler that can raise returns
`HandlerState × Option PyErr`, where the state component reflects all
mutations performed before the exception escaped.

External values flowing through the handler are modelled by the inductive
`PyVal`, with one constructor per shape the handler distinguishes.
-/

namespace LangGraph

/-- A Python exception, as far as the handler can observe one: either an
`AttributeError` (the only class the extractor's generic field loop catches)
or any other exception, carried with a label. -/
inductive PyErr where
  | attributeError
  | otherError (msg : String)
  deriving DecidableEq, Repr

/-- Model of `langchain_core.messages.BaseMessage` (external to this repository):
only the fields the handler touches are modelled — the optional `id`
(`Optional[str]`) and an opaque content payload. -/
structure BaseMessage where
  id : Option String
  content : String
  deriving DecidableEq, Repr

/-- A Python value as dispatched on by the handler: `None`, a `str`, a
`BaseMessage`, a `dict`, a non-string `Sequence`, a `langgraph.types.Command`
(a dataclass whose fields, in the sorted order `dir` lists them, are `goto`,
`graph`, `resume`, `update`; its methods and dunder attributes contain no
messages and are omitted), or any other object exposing named fields whose
reads may raise (`obj`, the generic-reflection case; the field list stands
for the non-dunder entries of `dir(x)` in `dir`'s sorted order). -/
inductive PyVal where
  | none
  | str (s : String)
  | message (m : BaseMessage)
  | dict (entries : List (String × PyVal))
  | seq (items : List PyVal)
  | command (goto graph resume update : PyVal)
  | obj (fields : List (String × Except PyErr PyVal))
  deriving Repr

/-- A metadata record: a Python `dict[str, Any]`, as an association list in
insertion order. The empty list doubles for an absent (`None`) record, since
the handler only ever tests metadata by truthiness, which identifies the
two. -/
abbrev Metadata := List (String × PyVal)

/-- A registry entry: `(namespace path, metadata)` — the `Meta` tuple type of
the source. -/
abbrev Meta := List String × Metadata

/-- One call to the sink: the tuple
`(meta[0], "messages", (message, meta[1]))`. -/
structure StreamChunk where
  ns : List String
  mode : String
  message : BaseMessage
  meta : Metadata
  deriving Repr

/-- The handler's mutable state: `self.metadata` (the run registry, an
association list keyed by run id, modelled as `Nat`), `self.seen` (the set of
already-emitted identities; Python's `in`/`add` work on the `Optional[str]`
value `message.id`, so elements are `Option String` — in practice only
`some` values are ever inserted), and the sequence of chunks handed to the
sink so far. -/
structure HandlerState where
  metadata : List (Nat × Meta)
  seen : List (Option String)
  out : List StreamChunk
  deriving Repr

/-- The state of a freshly constructed handler. -/
def initState : HandlerState := ⟨[], [], []⟩

/-- Modelled from the spec: `langgraph.constants.NS_SEP` (not under `src/`),
the separator of the joined checkpoint-namespace string. -/
def NS_SEP : String := "|"

/-- Modelled from the spec: `langgraph.constants.TAG_NOSTREAM` (not under
`src/`), the "no-stream" marker tag. -/
def TAG_NOSTREAM : String := "no-stream"

/-- Modelled from the spec: `langgraph.constants.TAG_HIDDEN` (not under
`src/`), the "hidden" marker tag. -/
def TAG_HIDDEN : String := "hidden"

/-- The tag prefix `"seq:step"` filtered out in `on_llm_new_token`. -/
def seqStepTag : String := "seq:step"

/-- The metadata key `"langgraph_checkpoint_ns"`. -/
def ckptNsKey : String := "langgraph_checkpoint_ns"

/-- The metadata key `"langgraph_node"`. -/
def nodeKey : String := "langgraph_node"

/-- The metadata key `"tags"`. -/
def tagsKey : String := "tags"

/-- The stream mode tag `"messages"`. -/
def messagesMode : String := "messages"

/-- Python `str.startswith`, computed on the character list. -/
def pyStartsWith (s p : String) : Bool := p.data.isPrefixOf s.data

/-- Python `str.endswith`, computed on the character list. -/
def pyEndsWith (s p : String) : Bool := p.data.reverse.isPrefixOf s.data.reverse

/-- Model of `langchain_core.outputs.ChatGenerationChunk` (external): only the
`message` field is read by the handler. An argument that is not an instance
of this class is modelled as `Option.none` at the call site. -/
structure ChatGenerationChunk where
  message : BaseMessage
  deriving Repr

/-- Python `set.add` on the seen set: a no-op when the identity is already a
member, otherwise the identity is inserted. -/
def seenAdd (s : List (Option String)) (i : Option String) : List (Option String) :=
  if i ∈ s then s else s ++ [i]

/-- Modelled from the spec: `str(uuid4())` — the fresh, globally-unique
identity assigned to a message lacking one. The spec's global-uniqueness
assumption is modelled by a deterministic generator whose output is longer
than (hence distinct from) every identity currently in the seen set. -/
def freshId (seen : List (Option String)) : String :=
  String.mk (List.replicate
    ((seen.filterMap (fun o => o)).foldr (fun s n => max s.length n) 0 + 1) ('u'))

/-- The identity-assignment step of `_emit`: `if message.id is None:
message.id = str(uuid4())`. -/
def assignId (seen : List (Option String)) (m : BaseMessage) : BaseMessage :=
  if m.id = Option.none then { m with id := some (freshId seen) } else m

/-- Python `dict` lookup by key (`d.get(k)` / `d[k]` before the KeyError check):
first binding wins. -/
def metaGet (d : Metadata) (k : String) : Option PyVal :=
  (d.find? (fun p => p.1 == k)).map Prod.snd

/-- Assignment `d[k] = v` on a Python dict: replaces the value in place when the key is
present, otherwise appends the binding. -/
def dictSet (d : Metadata) (k : String) (v : PyVal) : Metadata :=
  if d.any (fun p => p.1 == k) then
    d.map (fun p => if p.1 == k then (k, v) else p)
  else d ++ [(k, v)]

/-- Access `metadata["langgraph_checkpoint_ns"]` followed by `.split(NS_SEP)` on the
result: a missing key raises `KeyError`, a non-string value raises
`AttributeError` (no `.split`); both propagate — the source does not catch
them. -/
def getCheckpointNs (md : Metadata) : Except PyErr String :=
  match metaGet md ckptNsKey with
  | Option.none => Except.error (PyErr.otherError ("KeyError"))
  | some (PyVal.str s) => Except.ok s
  | some _ => Except.error PyErr.attributeError

/-- Lookup `self.metadata.get(run_id)`. -/
def registryGet (r : List (Nat × Meta)) (k : Nat) : Option Meta :=
  (r.find? (fun p => p.1 == k)).map Prod.snd

/-- Assignment `self.metadata[run_id] = v`: overwrite when present, else insert. -/
def registrySet (r : List (Nat × Meta)) (k : Nat) (v : Meta) : List (Nat × Meta) :=
  if r.any (fun p => p.1 == k) then
    r.map (fun p => if p.1 == k then (k, v) else p)
  else r ++ [(k, v)]

/-- Removal effect of `self.metadata.pop(run_id, None)`: drop every binding of
the key (idempotent on an absent key). -/
def registryRemove (r : List (Nat × Meta)) (k : Nat) : List (Nat × Meta) :=
  r.filter (fun p => !(p.1 == k))

/-- Python `==` between `kwargs.get("name")` and
`metadata.get("langgraph_node")`: two `None`s compare equal (a value of
`None` stored under the key is indistinguishable from an absent key), a
string compares by value, any other combination is unequal. -/
def nameMatches : Option String → Option PyVal → Bool
  | Option.none, Option.none => true
  | Option.none, some PyVal.none => true
  | some s, some (PyVal.str t) => s == t
  | _, _ => false

namespace StreamMessagesHandler

/-- Method `StreamMessagesHandler._emit` (source lines 44-51): when `dedupe` is set
and the message's identity is already in the seen set, do nothing; otherwise
assign a fresh identity if the message has none, record the identity as
seen, and forward the chunk `(meta[0], "messages", (message, meta[1]))` to
the sink. -/
def _emit (st : HandlerState) (meta : Meta) (message : BaseMessage)
    (dedupe : Bool) : HandlerState :=
  if dedupe = true ∧ message.id ∈ st.seen then st
  else
    let msg := assignId st.seen message
    { st with
        seen := seenAdd st.seen msg.id
        out := st.out ++ [StreamChunk.mk meta.1 messagesMode msg meta.2] }

/-- Handler `on_chat_model_start`: register the run (splitting the checkpoint
namespace into a path) only when metadata is truthy and the tag list is
falsy or lacks the no-stream marker. The namespace access can raise, in
which case nothing is registered and the error propagates. -/
def on_chat_model_start (st : HandlerState) (runId : Nat) (tags : List String)
    (metadata : Metadata) : HandlerState × Option PyErr :=
  if metadata.isEmpty = false ∧ (tags = [] ∨ TAG_NOSTREAM ∉ tags) then
    match getCheckpointNs metadata with
    | Except.ok ns =>
        ({ st with
            metadata := registrySet st.metadata runId (ns.splitOn NS_SEP, metadata) },
         Option.none)
    | Except.error e => (st, some e)
  else (st, Option.none)

/-- Handler `on_llm_new_token`: ignore the event unless the chunk is a
`ChatGenerationChunk` (modelled by `Option.none` for any unrecognized
argument) and the run is registered. Filter out `"seq:step"`-prefixed tags;
when any tags remain, overwrite the registered metadata's `"tags"` entry
with the filtered list (the source mutates the dict held by the registry).
Then emit the chunk's message with `dedupe = false`. -/
def on_llm_new_token (st : HandlerState) (runId : Nat)
    (chunk : Option ChatGenerationChunk) (tags : List String) : HandlerState :=
  match chunk with
  | Option.none => st
  | some c =>
    match registryGet st.metadata runId with
    | Option.none => st
    | some meta =>
      let filteredTags := tags.filter (fun t => !(pyStartsWith t seqStepTag))
      if filteredTags = [] then _emit st meta c.message false
      else
        let meta2 : Meta :=
          (meta.1, dictSet meta.2 tagsKey (PyVal.seq (filteredTags.map PyVal.str)))
        _emit { st with metadata := registrySet st.metadata runId meta2 }
          meta2 c.message false

/-- Handler `on_llm_end`: `self.metadata.pop(run_id, None)` — deregister, nothing
else. -/
def on_llm_end (st : HandlerState) (runId : Nat) : HandlerState :=
  { st with metadata := registryRemove st.metadata runId }

/-- Handler `on_llm_error`: identical cleanup to `on_llm_end`; the error value is
unused. -/
def on_llm_error (st : HandlerState) (runId : Nat) : HandlerState :=
  { st with metadata := registryRemove st.metadata runId }

/-- The body of the inner seeding loop of `on_chain_start` (`for item in
value: ...`): an element that is a `BaseMessage` with a non-null id is
recorded as seen, anything else is ignored. -/
def seedItem (s : List (Option String)) (it : PyVal) : List (Option String) :=
  match it with
  | PyVal.message m =>
      match m.id with
      | some i => seenAdd s (some i)
      | Option.none => s
  | _ => s

/-- The input-seeding loop body of `on_chain_start`, for one value of the
inputs dict: a `BaseMessage` with a non-null id is recorded as seen; a
non-string `Sequence` has each element that is a `BaseMessage` with a
non-null id recorded; everything else is ignored. -/
def seedValue (s : List (Option String)) (v : PyVal) : List (Option String) :=
  match v with
  | PyVal.message m =>
      match m.id with
      | some i => seenAdd s (some i)
      | Option.none => s
  | PyVal.seq items => items.foldl seedItem s
  | _ => s

/-- The `if isinstance(inputs, dict): for key, value in inputs.items(): ...`
seeding loop of `on_chain_start`. -/
def seedInputs (s : List (Option String)) (inputs : PyVal) : List (Option String) :=
  match inputs with
  | PyVal.dict entries => entries.foldl (fun s kv => seedValue s kv.2) s
  | _ => s

/-- Handler `on_chain_start`: register the run only when metadata is truthy, the
invocation's `name` equals the metadata's `langgraph_node` entry, and the
tag list is falsy or lacks the hidden marker; then seed the seen set from
the inputs dict. The checkpoint-namespace access can raise before anything
is registered or seeded. -/
def on_chain_start (st : HandlerState) (runId : Nat) (name : Option String)
    (inputs : PyVal) (tags : List String) (metadata : Metadata) :
    HandlerState × Option PyErr :=
  if metadata.isEmpty = false ∧ nameMatches name (metaGet metadata nodeKey) = true ∧
      (tags = [] ∨ TAG_HIDDEN ∉ tags) then
    match getCheckpointNs metadata with
    | Except.ok ns =>
        let st1 := { st with
          metadata := registrySet st.metadata runId (ns.splitOn NS_SEP, metadata) }
        ({ st1 with seen := seedInputs st1.seen inputs }, Option.none)
    | Except.error e => (st, some e)
  else (st, Option.none)

mutual

/-- Method `StreamMessagesHandler._process_response` (source lines 158-186).
Dispatch in source order: `None` yields nothing; at depth ≥ 5 traversal
stops; a `BaseMessage` is emitted with `dedupe = True`; a `dict` recurses
into its values and a non-string `Sequence` into its elements (both at
`depth + 1`, exceptions propagating); otherwise the generic
`hasattr(response, "__dir__")` branch runs — and since every Python object
has a callable `object.__dir__`, this branch captures every remaining value,
including `Command`: the source's final `elif isinstance(response, Command)`
branch is unreachable dead code, so a `Command` is traversed by enumerating
its non-dunder fields (`goto`, `graph`, `resume`, `update`) like any other
object, not by descending into `update` alone. A `str` also reaches the
generic branch; its `dir` lists only built-in methods, which contain no
messages and never fail to read, so the traversal returns the state
unchanged and that branch is modelled as a no-op. -/
def _process_response (st : HandlerState) (response : PyVal) (meta : Meta)
    (depth : Nat) : HandlerState × Option PyErr :=
  match response with
  | PyVal.none => (st, Option.none)
  | r =>
    if _h5 : 5 ≤ depth then (st, Option.none)
    else
      match r with
      | PyVal.none => (st, Option.none)
      | PyVal.message m => (_emit st meta m true, Option.none)
      | PyVal.dict entries =>
          processValues st (entries.map Prod.snd) meta (depth + 1)
      | PyVal.seq items => processValues st items meta (depth + 1)
      | PyVal.str _ => (st, Option.none)
      | PyVal.command g gr re u =>
          processFields st
            [(("goto"), Except.ok g), (("graph"), Except.ok gr),
             (("resume"), Except.ok re), (("update"), Except.ok u)]
            meta (depth + 1)
      | PyVal.obj fields => processFields st fields meta (depth + 1)
  termination_by (2 * (5 - depth), 0)

/-- The `for value in response.values()` / `for item in response` loops of
`_process_response`: process each value in order; an exception raised by one
iteration aborts the loop and propagates, keeping the state mutated so
far. -/
def processValues (st : HandlerState) (vs : List PyVal) (meta : Meta)
    (depth : Nat) : HandlerState × Option PyErr :=
  match vs with
  | [] => (st, Option.none)
  | v :: rest =>
    match _process_response st v meta depth with
    | (st1, Option.none) => processValues st1 rest meta depth
    | (st1, some e) => (st1, some e)
  termination_by (2 * (5 - depth) + 1, vs.length)

/-- The `for key in dir(response)` loop of `_process_response`: skip dunder
names; `try` the attribute read and the recursive processing of its value,
swallowing an `AttributeError` (and only an `AttributeError`) raised by
either; any other exception aborts the loop and propagates. -/
def processFields (st : HandlerState) (fs : List (String × Except PyErr PyVal))
    (meta : Meta) (depth : Nat) : HandlerState × Option PyErr :=
  match fs with
  | [] => (st, Option.none)
  | (k, v) :: rest =>
    if pyStartsWith k ("__") = true ∧ pyEndsWith k ("__") = true then
      processFields st rest meta depth
    else
      match v with
      | Except.error PyErr.attributeError => processFields st rest meta depth
      | Except.error e => (st, some e)
      | Except.ok val =>
        match _process_response st val meta depth with
        | (st1, Option.none) => processFields st1 rest meta depth
        | (st1, some PyErr.attributeError) => processFields st1 rest meta depth
        | (st1, some e) => (st1, some e)
  termination_by (2 * (5 - depth) + 1, fs.length)

end

/-- Handler `on_chain_end`: pop the run's registry entry; when one was present,
recursively extract and emit from the response, starting at depth 0. -/
def on_chain_end (st : HandlerState) (runId : Nat) (response : PyVal) :
    HandlerState × Option PyErr :=
  match registryGet st.metadata runId with
  | Option.none => (st, Option.none)
  | some meta =>
      _process_response { st with metadata := registryRemove st.metadata runId }
        response meta 0

/-- Handler `on_chain_error`: deregister, nothing else. -/
def on_chain_error (st : HandlerState) (runId : Nat) : HandlerState :=
  { st with metadata := registryRemove st.metadata runId }

end StreamMessagesHandler

/-- One callback delivered by the host engine, with the inputs the handler
actually consumes. -/
inductive Event where
  | chatModelStart (runId : Nat) (tags : List String) (metadata : Metadata)
  | llmNewToken (runId : Nat) (chunk : Option ChatGenerationChunk) (tags : List String)
  | llmEnd (runId : Nat)
  | llmError (runId : Nat)
  | chainStart (runId : Nat) (name : Option String) (inputs : PyVal)
      (tags : List String) (metadata : Metadata)
  | chainEnd (runId : Nat) (response : PyVal)
  | chainError (runId : Nat)

/-- Dispatch one event to its handler method. -/
def step (st : HandlerState) (e : Event) : HandlerState × Option PyErr :=
  match e with
  | Event.chatModelStart runId tags md =>
      StreamMessagesHandler.on_chat_model_start st runId tags md
  | Event.llmNewToken runId chunk tags =>
      (StreamMessagesHandler.on_llm_new_token st runId chunk tags, Option.none)
  | Event.llmEnd runId => (StreamMessagesHandler.on_llm_end st runId, Option.none)
  | Event.llmError runId => (StreamMessagesHandler.on_llm_error st runId, Option.none)
  | Event.chainStart runId name inputs tags md =>
      StreamMessagesHandler.on_chain_start st runId name inputs tags md
  | Event.chainEnd runId response =>
      StreamMessagesHandler.on_chain_end st runId response
  | Event.chainError runId =>
      (StreamMessagesHandler.on_chain_error st runId, Option.none)

/-- The handler state after a sequence of events, starting from `st`. -/
def runEvents (st : HandlerState) (es : List Event) : HandlerState :=
  es.foldl (fun s e => (step s e).1) st

/-! Section: The extraction invariant

`MProp st st2` relates a state to any state reachable from it by dedupe-on
emissions: the registry is untouched, the seen set only grows and only by
non-null identities, and the sink output is extended by chunks whose
message identities are non-null and were not seen in the initial state. -/

def MProp (st st2 : HandlerState) : Prop :=
  st2.metadata = st.metadata ∧
  (∀ i, i ∈ st.seen → i ∈ st2.seen) ∧
  (∀ i, i ∈ st2.seen → i ∈ st.seen ∨ i ≠ Option.none) ∧
  ∃ ext, st2.out = st.out ++ ext ∧
    ∀ ch, ch ∈ ext → ch.message.id ≠ Option.none ∧ ch.message.id ∉ st.seen

/-! Section: Lemmas about the seen set and fresh identities -/

theorem seenAdd_mem_self (s : List (Option String)) (i : Option String) :
    i ∈ seenAdd s i := by
  unfold seenAdd
  split
  · assumption
  · exact List.mem_append_right _ (List.mem_singleton.mpr rfl)

theorem mem_seenAdd_of_mem (s : List (Option String)) (i j : Option String)
    (h : j ∈ s) : j ∈ seenAdd s i := by
  unfold seenAdd
  split
  · exact h
  · exact List.mem_append_left _ h

theorem mem_of_mem_seenAdd {s : List (Option String)} {i j : Option String}
    (h : j ∈ seenAdd s i) : j ∈ s ∨ j = i := by
  unfold seenAdd at h
  split at h
  · exact Or.inl h
  · rcases List.mem_append.mp h with h | h
    · exact Or.inl h
    · exact Or.inr (List.mem_singleton.mp h)

theorem length_le_foldr_max (l : List String) (s : String) (h : s ∈ l) :
    s.length ≤ l.foldr (fun s n => max s.length n) 0 := by
  induction l with
  | nil => cases h
  | cons a t ih =>
    rcases List.mem_cons.mp h with rfl | h
    · exact le_max_left _ _
    · exact le_trans (ih h) (le_max_right _ _)

/-- The generated fresh identity is distinct from every identity in the seen
set. -/
theorem freshId_not_mem (seen : List (Option String)) :
    some (freshId seen) ∉ seen := by
  intro hmem
  have hf : freshId seen ∈ seen.filterMap (fun o => o) :=
    List.mem_filterMap.mpr ⟨some (freshId seen), hmem, rfl⟩
  have hle := length_le_foldr_max _ _ hf
  have hlen : (freshId seen).length =
      (seen.filterMap (fun o => o)).foldr (fun s n => max s.length n) 0 + 1 := by
    unfold freshId
    rw [show ∀ cs : List Char, (String.mk cs).length = cs.length from fun _ => rfl,
      List.length_replicate]
  omega

theorem assignId_id_ne_none (seen : List (Option String)) (m : BaseMessage) :
    (assignId seen m).id ≠ Option.none := by
  unfold assignId
  split
  · simp
  · assumption

theorem assignId_of_ne (seen : List (Option String)) (m : BaseMessage)
    (h : m.id ≠ Option.none) : assignId seen m = m := by
  unfold assignId
  split
  · exact absurd (by assumption) h
  · rfl

theorem assignId_of_none (seen : List (Option String)) (m : BaseMessage)
    (h : m.id = Option.none) : assignId seen m = { m with id := some (freshId seen) } := by
  unfold assignId
  split
  · rfl
  · exact absurd h (by assumption)

theorem assignId_not_mem (seen : List (Option String)) (m : BaseMessage)
    (h : m.id ∉ seen) : (assignId seen m).id ∉ seen := by
  by_cases hid : m.id = Option.none
  · rw [assignId_of_none seen m hid]
    exact freshId_not_mem seen
  · rw [assignId_of_ne seen m hid]
    exact h

/-! Section: Lemmas about the run registry -/

theorem find?_map_set (t : List (Nat × Meta)) (k : Nat) (v : Meta)
    (h : (t.any fun p => p.1 == k) = true) :
    ((t.map (fun p => if p.1 == k then (k, v) else p)).find?
      (fun p => p.1 == k)).map Prod.snd = some v := by
  induction t with
  | nil => simp at h
  | cons a t ih =>
    by_cases ha : a.1 = k
    · have hb : (a.1 == k) = true := by simp [ha]
      simp [List.find?, hb]
    · have ha' : (a.1 == k) = false := by simp [ha]
      have h' : (t.any fun p => p.1 == k) = true := by
        simpa [List.any_cons, ha'] using h
      simpa [List.find?, ha'] using ih h'

theorem find?_append_set (t : List (Nat × Meta)) (k : Nat) (v : Meta)
    (h : (t.any fun p => p.1 == k) = false) :
    ((t ++ [(k, v)]).find? (fun p => p.1 == k)).map Prod.snd = some v := by
  induction t with
  | nil => simp [List.find?]
  | cons a t ih =>
    simp only [List.any_cons, Bool.or_eq_false_iff] at h
    simp only [List.cons_append, List.find?, h.1]
    exact ih h.2

theorem registryGet_registrySet_self (r : List (Nat × Meta)) (k : Nat) (v : Meta) :
    registryGet (registrySet r k v) k = some v := by
  unfold registryGet registrySet
  split
  case isTrue h => exact find?_map_set r k v h
  case isFalse h =>
    exact find?_append_set r k v (by cases hb : r.any fun p => p.1 == k
                                     · rfl
                                     · exact absurd hb h)

theorem registryGet_registryRemove_self (r : List (Nat × Meta)) (k : Nat) :
    registryGet (registryRemove r k) k = Option.none := by
  unfold registryGet registryRemove
  induction r with
  | nil => rfl
  | cons a t ih =>
    by_cases ha : a.1 = k
    · simp only [List.filter, ha]
      simp only [beq_self_eq_true, Bool.not_true]
      exact ih
    · have ha' : (a.1 == k) = false := by simp [ha]
      simp only [List.filter, ha', Bool.not_false, List.find?]
      exact ih

theorem registryRemove_of_get_none (r : List (Nat × Meta)) (k : Nat)
    (h : registryGet r k = Option.none) : registryRemove r k = r := by
  unfold registryGet at h
  unfold registryRemove
  induction r with
  | nil => rfl
  | cons a t ih =>
    by_cases ha : (a.1 == k) = true
    · simp [List.find?, ha] at h
    · have ha' : (a.1 == k) = false := by
        cases hb : a.1 == k
        · rfl
        · exact absurd hb ha
      simp only [List.find?, ha'] at h
      simp [List.filter, ha', ih h]

/-! Section: Lemmas about the emitter -/

namespace StreamMessagesHandler

/-- With `dedupe = false` the emitter never skips: it always appends exactly
one chunk, carrying the identity-assigned message. -/
theorem _emit_false_eq (st : HandlerState) (meta : Meta) (m : BaseMessage) :
    _emit st meta m false =
      { st with
          seen := seenAdd st.seen (assignId st.seen m).id
          out := st.out ++
            [StreamChunk.mk meta.1 messagesMode (assignId st.seen m) meta.2] } := by
  unfold _emit
  simp

/-- With `dedupe = true` and an identity already seen, the emitter is a
no-op. -/
theorem _emit_true_skip (st : HandlerState) (meta : Meta) (m : BaseMessage)
    (h : m.id ∈ st.seen) : _emit st meta m true = st := by
  unfold _emit
  simp [h]

/-- With `dedupe = true` and an identity not yet seen, the emitter appends
one chunk and records the (possibly freshly assigned) identity. -/
theorem _emit_true_miss (st : HandlerState) (meta : Meta) (m : BaseMessage)
    (h : m.id ∉ st.seen) :
    _emit st meta m true =
      { st with
          seen := seenAdd st.seen (assignId st.seen m).id
          out := st.out ++
            [StreamChunk.mk meta.1 messagesMode (assignId st.seen m) meta.2] } := by
  unfold _emit
  simp [h]

end StreamMessagesHandler

theorem MProp_rfl (st : HandlerState) : MProp st st :=
  ⟨rfl, fun _ h => h, fun _ h => Or.inl h, [], by simp, by simp⟩

theorem MProp_trans {a b c : HandlerState} (h1 : MProp a b) (h2 : MProp b c) :
    MProp a c := by
  obtain ⟨hm1, hs1, hn1, e1, ho1, he1⟩ := h1
  obtain ⟨hm2, hs2, hn2, e2, ho2, he2⟩ := h2
  refine ⟨hm2.trans hm1, fun i h => hs2 i (hs1 i h), ?_, e1 ++ e2, ?_, ?_⟩
  · intro i h
    rcases hn2 i h with h' | h'
    · exact hn1 i h'
    · exact Or.inr h'
  · rw [ho2, ho1, List.append_assoc]
  · intro ch hch
    rcases List.mem_append.mp hch with h | h
    · exact he1 ch h
    · obtain ⟨hne, hnm⟩ := he2 ch h
      exact ⟨hne, fun hmem => hnm (hs1 _ hmem)⟩

namespace StreamMessagesHandler

theorem _emit_true_MProp (st : HandlerState) (meta : Meta) (m : BaseMessage) :
    MProp st (_emit st meta m true) := by
  by_cases h : m.id ∈ st.seen
  · rw [_emit_true_skip st meta m h]
    exact MProp_rfl st
  · rw [_emit_true_miss st meta m h]
    refine ⟨rfl, fun i hi => mem_seenAdd_of_mem _ _ _ hi, ?_,
      [StreamChunk.mk meta.1 messagesMode (assignId st.seen m) meta.2], rfl, ?_⟩
    · intro i hi
      rcases mem_of_mem_seenAdd hi with hi' | hi'
      · exact Or.inl hi'
      · exact Or.inr (hi' ▸ assignId_id_ne_none st.seen m)
    · intro ch hch
      rw [List.mem_singleton.mp hch]
      exact ⟨assignId_id_ne_none st.seen m, assignId_not_mem st.seen m h⟩

/-- The loop over a dict's values / a sequence's items preserves the
extraction invariant, given that each recursive step does. -/
theorem processValues_MProp_of (meta : Meta) (d : Nat)
    (H : ∀ st r, MProp st (_process_response st r meta d).1) :
    ∀ vs st, MProp st (processValues st vs meta d).1 := by
  intro vs
  induction vs with
  | nil =>
    intro st
    unfold processValues
    exact MProp_rfl st
  | cons v rest ih =>
    intro st
    unfold processValues
    rcases hpr : _process_response st v meta d with ⟨st1, err⟩
    have h1 : MProp st st1 := by
      have h := H st v
      rw [hpr] at h
      exact h
    cases err with
    | none => exact MProp_trans h1 (ih st1)
    | some e => exact h1

/-- The loop over an object's enumerated fields preserves the extraction
invariant, given that each recursive step does. -/
theorem processFields_MProp_of (meta : Meta) (d : Nat)
    (H : ∀ st r, MProp st (_process_response st r meta d).1) :
    ∀ fs st, MProp st (processFields st fs meta d).1 := by
  intro fs
  induction fs with
  | nil =>
    intro st
    unfold processFields
    exact MProp_rfl st
  | cons f rest ih =>
    intro st
    rcases f with ⟨k, v⟩
    by_cases hk : pyStartsWith k ("__") = true ∧ pyEndsWith k ("__") = true
    · unfold processFields
      rw [if_pos hk]
      exact ih st
    · cases v with
      | error e =>
        unfold processFields
        rw [if_neg hk]
        cases e with
        | attributeError => exact ih st
        | otherError msg => exact MProp_rfl st
      | ok val =>
        unfold processFields
        rw [if_neg hk]
        dsimp only
        split
        next st1 heq =>
          refine MProp_trans ?_ (ih st1)
          have h := H st val
          rw [heq] at h
          exact h
        next st1 heq =>
          refine MProp_trans ?_ (ih st1)
          have h := H st val
          rw [heq] at h
          exact h
        next st1 e hne heq =>
          have h := H st val
          rw [heq] at h
          exact h

/-- Bounded induction on the remaining depth: every extractor call satisfies
the extraction invariant. -/
theorem _process_response_MProp_aux :
    ∀ n d, 5 - d ≤ n → ∀ st r meta, MProp st (_process_response st r meta d).1 := by
  intro n
  induction n with
  | zero =>
    intro d hd st r meta
    have h5 : 5 ≤ d := by omega
    cases r
    all_goals unfold _process_response
    all_goals try rw [dif_pos h5]
    all_goals exact MProp_rfl st
  | succ n ih =>
    intro d hd st r meta
    by_cases h5 : 5 ≤ d
    · cases r
      all_goals unfold _process_response
      all_goals try rw [dif_pos h5]
      all_goals exact MProp_rfl st
    · have hA : ∀ st r, MProp st (_process_response st r meta (d + 1)).1 :=
        fun st r => ih (d + 1) (by omega) st r meta
      cases r with
      | none =>
        unfold _process_response
        exact MProp_rfl st
      | str s =>
        unfold _process_response
        rw [dif_neg h5]
        exact MProp_rfl st
      | message m =>
        unfold _process_response
        rw [dif_neg h5]
        exact _emit_true_MProp st meta m
      | dict entries =>
        unfold _process_response
        rw [dif_neg h5]
        exact processValues_MProp_of meta (d + 1) hA _ st
      | seq items =>
        unfold _process_response
        rw [dif_neg h5]
        exact processValues_MProp_of meta (d + 1) hA items st
      | command g gr re u =>
        unfold _process_response
        rw [dif_neg h5]
        exact processFields_MProp_of meta (d + 1) hA _ st
      | obj fields =>
        unfold _process_response
        rw [dif_neg h5]
        exact processFields_MProp_of meta (d + 1) hA fields st

/-- Every extractor call satisfies the extraction invariant. -/
theorem _process_response_MProp (st : HandlerState) (r : PyVal) (meta : Meta)
    (d : Nat) : MProp st (_process_response st r meta d).1 :=
  _process_response_MProp_aux 5 d (by omega) st r meta

end StreamMessagesHandler


/-! Section: Lemmas about input seeding and the event handlers -/

namespace StreamMessagesHandler

theorem mem_seedItem_of_mem (s : List (Option String)) (it : PyVal)
    (j : Option String) (h : j ∈ s) : j ∈ seedItem s it := by
  unfold seedItem
  split
  · split
    · exact mem_seenAdd_of_mem _ _ _ h
    · exact h
  · exact h

theorem seedItem_no_none (s : List (Option String)) (it : PyVal)
    (h : Option.none ∉ s) : Option.none ∉ seedItem s it := by
  unfold seedItem
  split
  · split
    · intro hmem
      rcases mem_of_mem_seenAdd hmem with hm | hm
      · exact h hm
      · exact Option.noConfusion hm
    · exact h
  · exact h

theorem mem_foldl_seedItem_of_mem (items : List PyVal) :
    ∀ s j, j ∈ s → j ∈ items.foldl seedItem s := by
  induction items with
  | nil => exact fun s j h => h
  | cons a t ih => exact fun s j h => ih _ j (mem_seedItem_of_mem s a j h)

theorem foldl_seedItem_no_none (items : List PyVal) :
    ∀ s, Option.none ∉ s → Option.none ∉ items.foldl seedItem s := by
  induction items with
  | nil => exact fun s h => h
  | cons a t ih => exact fun s h => ih _ (seedItem_no_none s a h)

theorem mem_foldl_seedItem (items : List PyVal) (m : BaseMessage) (i : String)
    (hm : PyVal.message m ∈ items) (hid : m.id = some i) :
    ∀ s, some i ∈ items.foldl seedItem s := by
  induction items with
  | nil => cases hm
  | cons a t ih =>
    intro s
    rcases List.mem_cons.mp hm with rfl | hm'
    · rw [List.foldl_cons]
      apply mem_foldl_seedItem_of_mem
      simp only [seedItem, hid]
      exact seenAdd_mem_self _ _
    · rw [List.foldl_cons]
      exact ih hm' _

theorem mem_seedValue_of_mem (s : List (Option String)) (v : PyVal)
    (j : Option String) (h : j ∈ s) : j ∈ seedValue s v := by
  unfold seedValue
  split
  · split
    · exact mem_seenAdd_of_mem _ _ _ h
    · exact h
  · exact mem_foldl_seedItem_of_mem _ _ _ h
  · exact h

theorem seedValue_no_none (s : List (Option String)) (v : PyVal)
    (h : Option.none ∉ s) : Option.none ∉ seedValue s v := by
  unfold seedValue
  split
  · split
    · intro hmem
      rcases mem_of_mem_seenAdd hmem with hm | hm
      · exact h hm
      · exact Option.noConfusion hm
    · exact h
  · exact foldl_seedItem_no_none _ _ h
  · exact h

theorem mem_foldl_seedValue_of_mem (entries : List (String × PyVal)) :
    ∀ s j, j ∈ s → j ∈ entries.foldl (fun s kv => seedValue s kv.2) s := by
  induction entries with
  | nil => exact fun s j h => h
  | cons a t ih => exact fun s j h => ih _ j (mem_seedValue_of_mem s a.2 j h)

theorem seedInputs_of_mem (s : List (Option String)) (inputs : PyVal)
    (j : Option String) (h : j ∈ s) : j ∈ seedInputs s inputs := by
  unfold seedInputs
  split
  · exact mem_foldl_seedValue_of_mem _ _ _ h
  · exact h

theorem foldl_seedValue_no_none (entries : List (String × PyVal)) :
    ∀ s, Option.none ∉ s →
      Option.none ∉ entries.foldl (fun s kv => seedValue s kv.2) s := by
  induction entries with
  | nil => exact fun s h => h
  | cons a t ih => exact fun s h => ih _ (seedValue_no_none s a.2 h)

theorem seedInputs_no_none (s : List (Option String)) (inputs : PyVal)
    (h : Option.none ∉ s) : Option.none ∉ seedInputs s inputs := by
  unfold seedInputs
  split
  · exact foldl_seedValue_no_none _ _ h
  · exact h

theorem mem_foldl_seedValue_message (entries : List (String × PyVal)) (k : String)
    (m : BaseMessage) (i : String) (hin : (k, PyVal.message m) ∈ entries)
    (hid : m.id = some i) :
    ∀ s, some i ∈ entries.foldl (fun s kv => seedValue s kv.2) s := by
  induction entries with
  | nil => cases hin
  | cons a t ih =>
    intro s
    rcases List.mem_cons.mp hin with rfl | hin'
    · rw [List.foldl_cons]
      apply mem_foldl_seedValue_of_mem
      simp only [seedValue, hid]
      exact seenAdd_mem_self _ _
    · rw [List.foldl_cons]
      exact ih hin' _

theorem mem_foldl_seedValue_seq (entries : List (String × PyVal)) (k : String)
    (items : List PyVal) (m : BaseMessage) (i : String)
    (hin : (k, PyVal.seq items) ∈ entries) (hmem : PyVal.message m ∈ items)
    (hid : m.id = some i) :
    ∀ s, some i ∈ entries.foldl (fun s kv => seedValue s kv.2) s := by
  induction entries with
  | nil => cases hin
  | cons a t ih =>
    intro s
    rcases List.mem_cons.mp hin with rfl | hin'
    · rw [List.foldl_cons]
      apply mem_foldl_seedValue_of_mem
      simp only [seedValue]
      exact mem_foldl_seedItem items m i hmem hid _
    · rw [List.foldl_cons]
      exact ih hin' _

theorem seedInputs_message_mem (entries : List (String × PyVal)) (k : String)
    (m : BaseMessage) (i : String) (hin : (k, PyVal.message m) ∈ entries)
    (hid : m.id = some i) :
    ∀ s, some i ∈ seedInputs s (PyVal.dict entries) := by
  intro s
  simp only [seedInputs]
  exact mem_foldl_seedValue_message entries k m i hin hid s

theorem seedInputs_seq_mem (entries : List (String × PyVal)) (k : String)
    (items : List PyVal) (m : BaseMessage) (i : String)
    (hin : (k, PyVal.seq items) ∈ entries) (hmem : PyVal.message m ∈ items)
    (hid : m.id = some i) :
    ∀ s, some i ∈ seedInputs s (PyVal.dict entries) := by
  intro s
  simp only [seedInputs]
  exact mem_foldl_seedValue_seq entries k items m i hin hmem hid s

/-- Evaluation of `on_chain_start` when all three gate conditions hold and
the checkpoint namespace resolves: the run is registered and the seen set is
seeded from the inputs. -/
theorem on_chain_start_eq (st : HandlerState) (rid : Nat) (nm : Option String)
    (inputs : PyVal) (tags : List String) (md : Metadata) (ns : String)
    (hmd : md.isEmpty = false)
    (hname : nameMatches nm (metaGet md nodeKey) = true)
    (htags : tags = [] ∨ TAG_HIDDEN ∉ tags)
    (hns : getCheckpointNs md = Except.ok ns) :
    on_chain_start st rid nm inputs tags md =
      ({ st with
          metadata := registrySet st.metadata rid (ns.splitOn NS_SEP, md)
          seen := seedInputs st.seen inputs }, Option.none) := by
  unfold on_chain_start
  rw [if_pos ⟨hmd, hname, htags⟩, hns]

/-- Handler `on_chat_model_start` never touches the seen set or the sink. -/
theorem on_chat_model_start_frame (st : HandlerState) (rid : Nat)
    (tags : List String) (md : Metadata) :
    (on_chat_model_start st rid tags md).1.seen = st.seen ∧
    (on_chat_model_start st rid tags md).1.out = st.out := by
  unfold on_chat_model_start
  split
  · split
    · exact ⟨rfl, rfl⟩
    · exact ⟨rfl, rfl⟩
  · exact ⟨rfl, rfl⟩

/-- Handler `on_chain_start` never touches the sink, and its seen set is the seeded
one (or unchanged when the gate rejects the event). -/
theorem on_chain_start_no_none (st : HandlerState) (rid : Nat) (nm : Option String)
    (inputs : PyVal) (tags : List String) (md : Metadata)
    (h : Option.none ∉ st.seen) :
    Option.none ∉ (on_chain_start st rid nm inputs tags md).1.seen := by
  unfold on_chain_start
  split
  · split
    · exact seedInputs_no_none _ _ h
    · exact h
  · exact h

/-- The emitter only ever records a non-null identity. -/
theorem _emit_no_none (st : HandlerState) (meta : Meta) (m : BaseMessage)
    (ded : Bool) (h : Option.none ∉ st.seen) :
    Option.none ∉ (_emit st meta m ded).seen := by
  unfold _emit
  split
  · exact h
  · intro hmem
    rcases mem_of_mem_seenAdd hmem with hm | hm
    · exact h hm
    · exact assignId_id_ne_none st.seen m hm.symm

/-- A token event for a registered run appends exactly one chunk to the sink:
the identity-assigned chunk message, whose identity is recorded as seen. -/
theorem on_llm_new_token_emits (st : HandlerState) (rid : Nat)
    (c : ChatGenerationChunk) (tags : List String) (meta : Meta)
    (hreg : registryGet st.metadata rid = some meta) :
    ∃ ch, (on_llm_new_token st rid (some c) tags).out = st.out ++ [ch] ∧
      ch.message = assignId st.seen c.message ∧
      ch.message.id ∈ (on_llm_new_token st rid (some c) tags).seen := by
  unfold on_llm_new_token
  rw [hreg]
  dsimp only
  split
  · rw [_emit_false_eq]
    exact ⟨_, rfl, rfl, seenAdd_mem_self _ _⟩
  · rw [_emit_false_eq]
    exact ⟨_, rfl, rfl, seenAdd_mem_self _ _⟩

/-- A token event for a registered run leaves the run registered (possibly
with rewritten metadata tags). -/
theorem on_llm_new_token_keeps_registration (st : HandlerState) (rid : Nat)
    (c : ChatGenerationChunk) (tags : List String) (meta : Meta)
    (hreg : registryGet st.metadata rid = some meta) :
    ∃ meta2, registryGet (on_llm_new_token st rid (some c) tags).metadata rid
      = some meta2 := by
  unfold on_llm_new_token
  rw [hreg]
  dsimp only
  split
  · rw [_emit_false_eq]
    exact ⟨meta, hreg⟩
  · rw [_emit_false_eq]
    exact ⟨_, registryGet_registrySet_self st.metadata rid _⟩

/-- A token event never records a null identity. -/
theorem on_llm_new_token_no_none (st : HandlerState) (rid : Nat)
    (chunk : Option ChatGenerationChunk) (tags : List String)
    (h : Option.none ∉ st.seen) :
    Option.none ∉ (on_llm_new_token st rid chunk tags).seen := by
  unfold on_llm_new_token
  cases chunk with
  | none => exact h
  | some c =>
    cases hreg : registryGet st.metadata rid with
    | none => exact h
    | some meta =>
      dsimp only
      split
      · exact _emit_no_none _ _ _ _ h
      · exact _emit_no_none _ _ _ _ h

/-- No event handler ever records a null identity into the seen set. -/
theorem step_no_none (st : HandlerState) (e : Event)
    (h : Option.none ∉ st.seen) : Option.none ∉ (step st e).1.seen := by
  cases e with
  | chatModelStart rid tags md =>
    have hf := (on_chat_model_start_frame st rid tags md).1
    unfold step
    rw [hf]
    exact h
  | llmNewToken rid chunk tags => exact on_llm_new_token_no_none st rid chunk tags h
  | llmEnd rid => exact h
  | llmError rid => exact h
  | chainStart rid nm inputs tags md =>
    exact on_chain_start_no_none st rid nm inputs tags md h
  | chainEnd rid response =>
    unfold step
    dsimp only
    unfold on_chain_end
    cases hreg : registryGet st.metadata rid with
    | none => exact h
    | some meta =>
      dsimp only
      have hm := _process_response_MProp
        { st with metadata := registryRemove st.metadata rid } response meta 0
      obtain ⟨_, _, hn, _, _, _⟩ := hm
      intro hmem
      rcases hn Option.none hmem with hm' | hm'
      · exact h hm'
      · exact hm' rfl
  | chainError rid => exact h

/-- Starting from a fresh handler, the seen set never contains a null
identity. -/
theorem runEvents_no_none (es : List Event) :
    ∀ st, Option.none ∉ st.seen → Option.none ∉ (runEvents st es).seen := by
  induction es with
  | nil => exact fun st h => h
  | cons e t ih =>
    intro st h
    exact ih _ (step_no_none st e h)

/-! Section: Claim theorems -/

/-- C7: if a model-start event's tag set contains the no-stream marker, the
run is not registered (the handler is a strict no-op), and a new-token event
for an unregistered run identifier produces no emission (the state is
unchanged); if a node-start event's tag set contains the hidden marker, the
run is not registered, and a node-end event for an unregistered run
identifier produces no emission. -/
theorem c7_tag_gating :
    (∀ (st : HandlerState) (rid : Nat) (tags : List String) (md : Metadata),
      TAG_NOSTREAM ∈ tags → on_chat_model_start st rid tags md = (st, Option.none)) ∧
    (∀ (st : HandlerState) (rid : Nat) (chunk : Option ChatGenerationChunk)
        (tags : List String),
      registryGet st.metadata rid = Option.none →
        on_llm_new_token st rid chunk tags = st) ∧
    (∀ (st : HandlerState) (rid : Nat) (nm : Option String) (inputs : PyVal)
        (tags : List String) (md : Metadata),
      TAG_HIDDEN ∈ tags → on_chain_start st rid nm inputs tags md = (st, Option.none)) ∧
    (∀ (st : HandlerState) (rid : Nat) (r : PyVal),
      registryGet st.metadata rid = Option.none →
        on_chain_end st rid r = (st, Option.none)) := by
  refine ⟨?_, ?_, ?_, ?_⟩
  · intro st rid tags md h
    have hc : ¬(md.isEmpty = false ∧ (tags = [] ∨ TAG_NOSTREAM ∉ tags)) := by
      rintro ⟨-, hor⟩
      rcases hor with rfl | hns
      · exact absurd h (List.not_mem_nil _)
      · exact hns h
    unfold on_chat_model_start
    rw [if_neg hc]
  · intro st rid chunk tags hreg
    unfold on_llm_new_token
    cases chunk with
    | none => rfl
    | some c => rw [hreg]
  · intro st rid nm inputs tags md h
    have hc : ¬(md.isEmpty = false ∧ nameMatches nm (metaGet md nodeKey) = true ∧
        (tags = [] ∨ TAG_HIDDEN ∉ tags)) := by
      rintro ⟨-, -, hor⟩
      rcases hor with rfl | hns
      · exact absurd h (List.not_mem_nil _)
      · exact hns h
    unfold on_chain_start
    rw [if_neg hc]
  · intro st rid r hreg
    unfold on_chain_end
    rw [hreg]

/-- Witness for C7 at concrete inputs. -/
theorem c7_witness :
    on_chat_model_start initState 1 [TAG_NOSTREAM] [] = (initState, Option.none) ∧
    on_llm_new_token initState 1 Option.none [] = initState ∧
    on_chain_start initState 1 Option.none PyVal.none [TAG_HIDDEN] []
      = (initState, Option.none) ∧
    on_chain_end initState 1 PyVal.none = (initState, Option.none) :=
  ⟨c7_tag_gating.1 initState 1 [TAG_NOSTREAM] [] (by decide),
   c7_tag_gating.2.1 initState 1 Option.none [] rfl,
   c7_tag_gating.2.2.1 initState 1 Option.none PyVal.none [TAG_HIDDEN] [] (by decide),
   c7_tag_gating.2.2.2 initState 1 PyVal.none rfl⟩

/-- C8: every chunk the emitter appends to the sink carries a non-null
message identity; when the incoming message's identity is null (and the seen
set does not contain the null identity, which it never does in reachable
states), the emitted chunk carries the freshly generated identity, which is
distinct from every identity currently in the seen set. -/
theorem c8_identity_assignment (st : HandlerState) (meta : Meta)
    (m : BaseMessage) (ded : Bool) :
    (∀ ch, ch ∈ (_emit st meta m ded).out →
      ch ∈ st.out ∨ ch.message.id ≠ Option.none) ∧
    (m.id = Option.none → Option.none ∉ st.seen →
      (_emit st meta m ded).out = st.out ++
        [StreamChunk.mk meta.1 messagesMode
          { m with id := some (freshId st.seen) } meta.2] ∧
      some (freshId st.seen) ∉ st.seen) := by
  constructor
  · intro ch hch
    unfold _emit at hch
    by_cases hc : ded = true ∧ m.id ∈ st.seen
    · rw [if_pos hc] at hch
      exact Or.inl hch
    · rw [if_neg hc] at hch
      dsimp only at hch
      rcases List.mem_append.mp hch with h | h
      · exact Or.inl h
      · rw [List.mem_singleton.mp h]
        exact Or.inr (assignId_id_ne_none st.seen m)
  · intro hm hn
    have hc : ¬(ded = true ∧ m.id ∈ st.seen) := by
      rintro ⟨-, hmem⟩
      rw [hm] at hmem
      exact hn hmem
    constructor
    · unfold _emit
      rw [if_neg hc]
      dsimp only
      rw [assignId_of_none st.seen m hm]
    · exact freshId_not_mem st.seen

/-- Witness for C8 at concrete inputs. -/
theorem c8_witness :
    (∀ ch, ch ∈ (_emit initState (["a"], []) ⟨Option.none, ("hi")⟩ true).out →
      ch ∈ initState.out ∨ ch.message.id ≠ Option.none) ∧
    ((_emit initState (["a"], []) ⟨Option.none, ("hi")⟩ true).out = initState.out ++
        [StreamChunk.mk ["a"] messagesMode
          ⟨some (freshId initState.seen), ("hi")⟩ []] ∧
      some (freshId initState.seen) ∉ initState.seen) :=
  ⟨(c8_identity_assignment initState (["a"], []) ⟨Option.none, ("hi")⟩ true).1,
   (c8_identity_assignment initState (["a"], []) ⟨Option.none, ("hi")⟩ true).2
     rfl (by decide)⟩

/-- C9: the model-end, model-error and node-error handlers remove the run's
registry entry and touch neither the seen set nor the sink; removal is
idempotent, so on an unregistered run identifier each of them — and
node-end — is a strict no-op. -/
theorem c9_end_error_cleanup (st : HandlerState) (rid : Nat) :
    (on_llm_end st rid).metadata = registryRemove st.metadata rid ∧
    (on_llm_end st rid).seen = st.seen ∧
    (on_llm_end st rid).out = st.out ∧
    on_llm_error st rid = on_llm_end st rid ∧
    on_chain_error st rid = on_llm_end st rid ∧
    registryGet (on_llm_end st rid).metadata rid = Option.none ∧
    (registryGet st.metadata rid = Option.none →
      on_llm_end st rid = st ∧ on_llm_error st rid = st ∧ on_chain_error st rid = st ∧
      ∀ r, on_chain_end st rid r = (st, Option.none)) := by
  refine ⟨rfl, rfl, rfl, rfl, rfl, registryGet_registryRemove_self st.metadata rid, ?_⟩
  intro hreg
  have hrm := registryRemove_of_get_none st.metadata rid hreg
  refine ⟨?_, ?_, ?_, ?_⟩
  · unfold on_llm_end
    rw [hrm]
  · unfold on_llm_error
    rw [hrm]
  · unfold on_chain_error
    rw [hrm]
  · intro r
    unfold on_chain_end
    rw [hreg]

/-- Witness for C9 at concrete inputs. -/
theorem c9_witness :
    ((on_llm_end initState 1).metadata = registryRemove initState.metadata 1 ∧
      (on_llm_end initState 1).seen = initState.seen ∧
      (on_llm_end initState 1).out = initState.out ∧
      on_llm_error initState 1 = on_llm_end initState 1 ∧
      on_chain_error initState 1 = on_llm_end initState 1 ∧
      registryGet (on_llm_end initState 1).metadata 1 = Option.none ∧
      (registryGet initState.metadata 1 = Option.none →
        on_llm_end initState 1 = initState ∧ on_llm_error initState 1 = initState ∧
        on_chain_error initState 1 = initState ∧
        ∀ r, on_chain_end initState 1 r = (initState, Option.none))) :=
  c9_end_error_cleanup initState 1

/-- C3: once an identity is in the seen set, a dedupe-on emission of a
message carrying it is a strict no-op, a node-end extraction of that very
message changes nothing, and no node-end extraction ever appends a chunk
carrying that identity to the sink (while the identity stays seen). -/
theorem c3_dedup_on_completion (st : HandlerState) (meta : Meta)
    (m : BaseMessage) (x : String) (rid : Nat) (resp : PyVal)
    (hid : m.id = some x) (hseen : some x ∈ st.seen) :
    _emit st meta m true = st ∧
    (∀ d, _process_response st (PyVal.message m) meta d = (st, Option.none)) ∧
    (∃ ext, (on_chain_end st rid resp).1.out = st.out ++ ext ∧
      ∀ ch, ch ∈ ext → ch.message.id ≠ some x) ∧
    some x ∈ (on_chain_end st rid resp).1.seen := by
  have hskip : _emit st meta m true = st := by
    apply _emit_true_skip
    rw [hid]
    exact hseen
  refine ⟨hskip, ?_, ?_⟩
  · intro d
    by_cases h5 : 5 ≤ d
    · unfold _process_response
      dsimp only
      rw [dif_pos h5]
    · unfold _process_response
      dsimp only
      rw [dif_neg h5]
      try dsimp only
      rw [hskip]
  · unfold on_chain_end
    cases hreg : registryGet st.metadata rid with
    | none =>
      dsimp only
      exact ⟨⟨[], (List.append_nil st.out).symm,
        fun ch hch => absurd hch (List.not_mem_nil _)⟩, hseen⟩
    | some meta2 =>
      dsimp only
      have hm := _process_response_MProp
        { st with metadata := registryRemove st.metadata rid } resp meta2 0
      obtain ⟨-, hmon, -, ext, hout, hext⟩ := hm
      refine ⟨⟨ext, hout, ?_⟩, hmon _ hseen⟩
      intro ch hch heq
      exact (hext ch hch).2 (heq ▸ hseen)

/-- Witness for C3 at concrete inputs. -/
theorem c3_witness :
    _emit ⟨[], [some ("m1")], []⟩ (["a"], []) ⟨some ("m1"), ("hi")⟩ true
      = ⟨[], [some ("m1")], []⟩ ∧
    (∀ d, _process_response ⟨[], [some ("m1")], []⟩
      (PyVal.message ⟨some ("m1"), ("hi")⟩) (["a"], []) d
      = (⟨[], [some ("m1")], []⟩, Option.none)) ∧
    (∃ ext, (on_chain_end ⟨[], [some ("m1")], []⟩ 1 PyVal.none).1.out
        = (⟨[], [some ("m1")], []⟩ : HandlerState).out ++ ext ∧
      ∀ ch, ch ∈ ext → ch.message.id ≠ some ("m1")) ∧
    some ("m1") ∈ (on_chain_end ⟨[], [some ("m1")], []⟩ 1 PyVal.none).1.seen :=
  c3_dedup_on_completion ⟨[], [some ("m1")], []⟩ (["a"], []) ⟨some ("m1"), ("hi")⟩
    ("m1") 1 PyVal.none rfl (by decide)

/-- C6: the extractor yields nothing at depth 5 or beyond, node-end enters
it at depth 0, a message under exactly 4 nested containers is extracted, and
a message under 5 nested containers is not. -/
theorem c6_depth_cap :
    (∀ (st : HandlerState) (r : PyVal) (meta : Meta) (d : Nat), 5 ≤ d →
      _process_response st r meta d = (st, Option.none)) ∧
    (∀ (st : HandlerState) (rid : Nat) (r : PyVal) (meta : Meta),
      registryGet st.metadata rid = some meta →
        on_chain_end st rid r =
          _process_response { st with metadata := registryRemove st.metadata rid }
            r meta 0) ∧
    ((_process_response initState
        (PyVal.dict [(("a"), PyVal.seq [PyVal.dict [(("b"), PyVal.seq
          [PyVal.message ⟨some ("m4"), ("hi")⟩])]])]) (["n"], []) 0).1.out.map
        (fun ch => ch.message.id) = [some ("m4")]) ∧
    ((_process_response initState
        (PyVal.seq [PyVal.dict [(("a"), PyVal.seq [PyVal.dict [(("b"), PyVal.seq
          [PyVal.message ⟨some ("m5"), ("hi")⟩])]])]]) (["n"], []) 0).1.out = []) := by
  refine ⟨?_, ?_, ?_, ?_⟩
  · intro st r meta d h5
    cases r
    all_goals unfold _process_response
    all_goals try rw [dif_pos h5]
    all_goals rfl
  · intro st rid r meta hreg
    unfold on_chain_end
    rw [hreg]
  · simp [_process_response, processValues, processFields, _emit, assignId,
      seenAdd, initState]
  · simp [_process_response, processValues, processFields, _emit, assignId,
      seenAdd, initState]

/-- Witness for C6 at concrete inputs. -/
theorem c6_witness :
    _process_response initState (PyVal.message ⟨some ("m"), ("hi")⟩) (["n"], []) 7
      = (initState, Option.none) ∧
    on_chain_end ⟨[(1, (["n"], []))], [], []⟩ 1 PyVal.none =
      _process_response
        { (⟨[(1, (["n"], []))], [], []⟩ : HandlerState) with
            metadata := registryRemove (⟨[(1, (["n"], []))], [], []⟩ : HandlerState).metadata 1 }
        PyVal.none (["n"], []) 0 :=
  ⟨c6_depth_cap.1 initState (PyVal.message ⟨some ("m"), ("hi")⟩) (["n"], []) 7
      (by decide),
   c6_depth_cap.2.1 ⟨[(1, (["n"], []))], [], []⟩ 1 PyVal.none (["n"], []) rfl⟩

/-- C4: a new-token event carrying a recognized generation chunk for a
registered run always appends exactly one chunk to the sink — dedupe is off,
no seen-set test gates the emission — and the emitted message's identity is
recorded as seen; two consecutive such events both emit. -/
theorem c4_no_dedup_on_tokens (st : HandlerState) (rid : Nat)
    (c : ChatGenerationChunk) (tags : List String) (meta : Meta)
    (hreg : registryGet st.metadata rid = some meta) :
    (∃ ch, (on_llm_new_token st rid (some c) tags).out = st.out ++ [ch] ∧
      ch.message = assignId st.seen c.message ∧
      ch.message.id ∈ (on_llm_new_token st rid (some c) tags).seen) ∧
    (on_llm_new_token (on_llm_new_token st rid (some c) tags) rid (some c)
        tags).out.length = st.out.length + 2 := by
  constructor
  · exact on_llm_new_token_emits st rid c tags meta hreg
  · obtain ⟨meta2, hreg2⟩ := on_llm_new_token_keeps_registration st rid c tags meta hreg
    obtain ⟨ch1, hout1, -, -⟩ := on_llm_new_token_emits st rid c tags meta hreg
    obtain ⟨ch2, hout2, -, -⟩ := on_llm_new_token_emits _ rid c tags meta2 hreg2
    rw [hout2, hout1]
    simp

/-- Witness for C4 at concrete inputs. -/
theorem c4_witness :
    (∃ ch, (on_llm_new_token ⟨[(1, (["a"], []))], [], []⟩ 1
        (some ⟨⟨some ("t1"), ("tok")⟩⟩) []).out
        = (⟨[(1, (["a"], []))], [], []⟩ : HandlerState).out ++ [ch] ∧
      ch.message = assignId (⟨[(1, (["a"], []))], [], []⟩ : HandlerState).seen
        (⟨some ("t1"), ("tok")⟩ : BaseMessage) ∧
      ch.message.id ∈ (on_llm_new_token ⟨[(1, (["a"], []))], [], []⟩ 1
        (some ⟨⟨some ("t1"), ("tok")⟩⟩) []).seen) ∧
    (on_llm_new_token (on_llm_new_token ⟨[(1, (["a"], []))], [], []⟩ 1
        (some ⟨⟨some ("t1"), ("tok")⟩⟩) []) 1
        (some ⟨⟨some ("t1"), ("tok")⟩⟩) []).out.length
      = (⟨[(1, (["a"], []))], [], []⟩ : HandlerState).out.length + 2 :=
  c4_no_dedup_on_tokens ⟨[(1, (["a"], []))], [], []⟩ 1 ⟨⟨some ("t1"), ("tok")⟩⟩
    [] (["a"], []) rfl

/-- A node-end on a run registered in a state whose seen set contains `X`
never emits a chunk carrying identity `X`, and removes the registry
entry. -/
theorem on_chain_end_no_seen_emission (st2 : HandlerState) (rid : Nat)
    (X : String) (resp : PyVal) (hX : some X ∈ st2.seen) (meta2 : Meta)
    (hreg : registryGet st2.metadata rid = some meta2) :
    (∃ ext, (on_chain_end st2 rid resp).1.out = st2.out ++ ext ∧
      ∀ ch, ch ∈ ext → ch.message.id ≠ some X) ∧
    registryGet (on_chain_end st2 rid resp).1.metadata rid = Option.none := by
  unfold on_chain_end
  rw [hreg]
  dsimp only
  have hm := _process_response_MProp
    { st2 with metadata := registryRemove st2.metadata rid } resp meta2 0
  obtain ⟨hmeta, hmon, hn, ext, hout, hext⟩ := hm
  refine ⟨⟨ext, hout, ?_⟩, ?_⟩
  · intro ch hch heq
    exact (hext ch hch).2 (heq ▸ hX)
  · rw [hmeta]
    exact registryGet_registryRemove_self st2.metadata rid

/-- C5: a node-start event that passes the registration gate registers the
run and pre-seeds the seen set with the identity of every input message —
a direct dict value, or a message element of a sequence value; consequently
a following node-end on that run never emits a chunk carrying a seeded
identity, and still removes the run's registry entry. -/
theorem c5_input_seeding (st : HandlerState) (rid : Nat) (nm : Option String)
    (entries : List (String × PyVal)) (tags : List String) (md : Metadata)
    (ns : String)
    (hmd : md.isEmpty = false)
    (hname : nameMatches nm (metaGet md nodeKey) = true)
    (htags : tags = [] ∨ TAG_HIDDEN ∉ tags)
    (hns : getCheckpointNs md = Except.ok ns) :
    (∀ k m i, (k, PyVal.message m) ∈ entries → m.id = some i →
      some i ∈ (on_chain_start st rid nm (PyVal.dict entries) tags md).1.seen) ∧
    (∀ k items m i, (k, PyVal.seq items) ∈ entries → PyVal.message m ∈ items →
      m.id = some i →
      some i ∈ (on_chain_start st rid nm (PyVal.dict entries) tags md).1.seen) ∧
    registryGet (on_chain_start st rid nm (PyVal.dict entries) tags md).1.metadata
      rid = some (ns.splitOn NS_SEP, md) ∧
    (∀ X resp,
      some X ∈ (on_chain_start st rid nm (PyVal.dict entries) tags md).1.seen →
      (∃ ext, (on_chain_end
          (on_chain_start st rid nm (PyVal.dict entries) tags md).1 rid resp).1.out
        = (on_chain_start st rid nm (PyVal.dict entries) tags md).1.out ++ ext ∧
        ∀ ch, ch ∈ ext → ch.message.id ≠ some X) ∧
      registryGet (on_chain_end
          (on_chain_start st rid nm (PyVal.dict entries) tags md).1
          rid resp).1.metadata rid = Option.none) := by
  have he := on_chain_start_eq st rid nm (PyVal.dict entries) tags md ns hmd hname
    htags hns
  rw [he]
  dsimp only
  refine ⟨?_, ?_, ?_, ?_⟩
  · intro k m i hin hid
    exact seedInputs_message_mem entries k m i hin hid st.seen
  · intro k items m i hin hmem hid
    exact seedInputs_seq_mem entries k items m i hin hmem hid st.seen
  · exact registryGet_registrySet_self st.metadata rid _
  · intro X resp hX
    exact on_chain_end_no_seen_emission _ rid X resp hX _
      (registryGet_registrySet_self st.metadata rid _)

/-- Witness for C5 at concrete inputs (the spec's scenario: node `N`,
namespace `b`, input message `m1`). -/
theorem c5_witness :
    (∀ k m i, (k, PyVal.message m) ∈
        [(("msg"), PyVal.message ⟨some ("m1"), ("x")⟩)] → m.id = some i →
      some i ∈ (on_chain_start initState 2 (some ("N"))
        (PyVal.dict [(("msg"), PyVal.message ⟨some ("m1"), ("x")⟩)]) []
        [(nodeKey, PyVal.str ("N")), (ckptNsKey, PyVal.str ("b"))]).1.seen) ∧
    (∀ k items m i, (k, PyVal.seq items) ∈
        [(("msg"), PyVal.message ⟨some ("m1"), ("x")⟩)] → PyVal.message m ∈ items →
      m.id = some i →
      some i ∈ (on_chain_start initState 2 (some ("N"))
        (PyVal.dict [(("msg"), PyVal.message ⟨some ("m1"), ("x")⟩)]) []
        [(nodeKey, PyVal.str ("N")), (ckptNsKey, PyVal.str ("b"))]).1.seen) ∧
    registryGet (on_chain_start initState 2 (some ("N"))
        (PyVal.dict [(("msg"), PyVal.message ⟨some ("m1"), ("x")⟩)]) []
        [(nodeKey, PyVal.str ("N")), (ckptNsKey, PyVal.str ("b"))]).1.metadata 2
      = some (("b").splitOn NS_SEP,
          [(nodeKey, PyVal.str ("N")), (ckptNsKey, PyVal.str ("b"))]) ∧
    (∀ X resp,
      some X ∈ (on_chain_start initState 2 (some ("N"))
        (PyVal.dict [(("msg"), PyVal.message ⟨some ("m1"), ("x")⟩)]) []
        [(nodeKey, PyVal.str ("N")), (ckptNsKey, PyVal.str ("b"))]).1.seen →
      (∃ ext, (on_chain_end (on_chain_start initState 2 (some ("N"))
          (PyVal.dict [(("msg"), PyVal.message ⟨some ("m1"), ("x")⟩)]) []
          [(nodeKey, PyVal.str ("N")), (ckptNsKey, PyVal.str ("b"))]).1 2 resp).1.out
        = (on_chain_start initState 2 (some ("N"))
          (PyVal.dict [(("msg"), PyVal.message ⟨some ("m1"), ("x")⟩)]) []
          [(nodeKey, PyVal.str ("N")), (ckptNsKey, PyVal.str ("b"))]).1.out ++ ext ∧
        ∀ ch, ch ∈ ext → ch.message.id ≠ some X) ∧
      registryGet (on_chain_end (on_chain_start initState 2 (some ("N"))
          (PyVal.dict [(("msg"), PyVal.message ⟨some ("m1"), ("x")⟩)]) []
          [(nodeKey, PyVal.str ("N")), (ckptNsKey, PyVal.str ("b"))]).1
          2 resp).1.metadata 2 = Option.none) :=
  c5_input_seeding initState 2 (some ("N"))
    [(("msg"), PyVal.message ⟨some ("m1"), ("x")⟩)] []
    [(nodeKey, PyVal.str ("N")), (ckptNsKey, PyVal.str ("b"))] ("b")
    rfl (by decide) (Or.inl rfl) rfl

/-- C10: starting from a fresh handler, no event sequence ever puts the null
identity into the seen set — seeding records only non-null identities and
the emitter assigns before recording; consequently a dedupe-on emission of
a null-identity message is never suppressed: it always appends one chunk
carrying a freshly assigned identity. -/
theorem c10_seen_has_no_null :
    (∀ es, Option.none ∉ (runEvents initState es).seen) ∧
    (∀ (st : HandlerState) (meta : Meta) (m : BaseMessage),
      Option.none ∉ st.seen → m.id = Option.none →
      (_emit st meta m true).out = st.out ++
        [StreamChunk.mk meta.1 messagesMode
          { m with id := some (freshId st.seen) } meta.2]) := by
  constructor
  · intro es
    exact runEvents_no_none es initState (List.not_mem_nil _)
  · intro st meta m hn hm
    have hc : ¬(true = true ∧ m.id ∈ st.seen) := by
      rintro ⟨-, hmem⟩
      rw [hm] at hmem
      exact hn hmem
    unfold _emit
    rw [if_neg hc]
    dsimp only
    rw [assignId_of_none st.seen m hm]

/-- Witness for C10 at concrete inputs. -/
theorem c10_witness :
    Option.none ∉ (runEvents initState
      [Event.chainStart 2 (some ("N"))
        (PyVal.dict [(("msg"), PyVal.message ⟨some ("m1"), ("x")⟩)]) []
        [(nodeKey, PyVal.str ("N")), (ckptNsKey, PyVal.str ("b"))],
       Event.chainEnd 2 (PyVal.message ⟨Option.none, ("y")⟩)]).seen ∧
    (_emit initState (["a"], []) ⟨Option.none, ("y")⟩ true).out = initState.out ++
      [StreamChunk.mk ["a"] messagesMode
        ⟨some (freshId initState.seen), ("y")⟩ []] :=
  ⟨c10_seen_has_no_null.1 _,
   c10_seen_has_no_null.2 initState (["a"], []) ⟨Option.none, ("y")⟩
     (List.not_mem_nil _) rfl⟩

/-- C1: the claim states that a `Command` ("wrapped update") container is
traversed through its `update` field only, with no other field inspected.
On the code this fails: the generic `__dir__` field-enumeration branch
precedes the `isinstance(response, Command)` branch, and every Python object
has a callable `object.__dir__`, so the dedicated Command branch is
unreachable dead code and all of a Command's non-dunder fields are
enumerated. Evaluating the extractor at the failing input
`Command(goto=message "m2", graph=None, resume=None, update=None)` emits the
message stored under `goto`: a field other than `update` is inspected and
traversed. -/
theorem c1_command_goto_traversed :
    ((_process_response initState
        (PyVal.command (PyVal.message ⟨some ("m2"), ("x")⟩) PyVal.none PyVal.none
          PyVal.none) (["n"], []) 0).1.out.map (fun ch => ch.message.id))
      = [some ("m2")] := by
  simp [_process_response, processValues, processFields, _emit, assignId, seenAdd,
    initState]
  decide

/-- C2 counterexample: a field read failing with an error other than
`AttributeError` is not caught: the extractor propagates it to the caller
instead of skipping the field, refuting the claim that a read failing with
any error is swallowed. -/
theorem c2_counterexample :
    (_process_response initState
        (PyVal.obj [(("p"), Except.error (PyErr.otherError ("boom")))])
        (["n"], []) 0).2 = some (PyErr.otherError ("boom")) := by
  simp [_process_response, processFields]
  decide

/-- C2 amended: during generic field enumeration, a field whose read fails
with `AttributeError` is skipped — the failure is swallowed and traversal
continues with the remaining fields; a read failing with any other error is
not caught: it aborts the traversal and propagates to the caller. -/
theorem c2_only_attribute_error_swallowed :
    ∀ (st : HandlerState) (k : String)
      (rest : List (String × Except PyErr PyVal)) (meta : Meta) (d : Nat)
      (msg : String),
      processFields st ((k, Except.error PyErr.attributeError) :: rest) meta d
        = processFields st rest meta d ∧
      (¬(pyStartsWith k ("__") = true ∧ pyEndsWith k ("__") = true) →
        processFields st ((k, Except.error (PyErr.otherError msg)) :: rest) meta d
          = (st, some (PyErr.otherError msg))) := by
  intro st k rest meta d msg
  constructor
  · rw [processFields.eq_def]
    dsimp only
    split
    · rfl
    · rfl
  · intro hk
    rw [processFields.eq_def]
    dsimp only
    rw [if_neg hk]

/-- Witness for the amended C2 at concrete inputs. -/
theorem c2_witness :
    processFields initState [(("p"), Except.error PyErr.attributeError)]
      (["n"], []) 1 = processFields initState [] (["n"], []) 1 ∧
    processFields initState [(("p"), Except.error (PyErr.otherError ("boom")))]
      (["n"], []) 1 = (initState, some (PyErr.otherError ("boom"))) :=
  ⟨(c2_only_attribute_error_swallowed initState ("p") [] (["n"], []) 1 ("boom")).1,
   (c2_only_attribute_error_swallowed initState ("p") [] (["n"], []) 1
     ("boom")).2 (by decide)⟩

end StreamMessagesHandler

end LangGraph
